import Mathlib

/-!
Verification of the experiment-control logic of `traditional_example.py`
(CIFAR-100 checkpoint-gated training and classifier-evaluation pipeline).

Shallow embedding conventions:
* validation accuracies are rationals (`ℚ`), exactly mirroring the value
  `100 * correct / total` computed by the validation pass;
* the mutable state of `train_model`'s epoch loop (`best_acc`, the single
  checkpoint slot on disk, the number of `scheduler.step()` calls) is threaded
  explicitly through a fold over the per-epoch validation accuracies;
* a `writes` log records every `torch.save` call so that "a checkpoint write
  happened at epoch e" is observable in the final state;
* file-system effects of the checkpoint-save block are modelled as a trace of
  `FileOp`s;
* an unhandled Python exception inside the orchestrator's `try` block is
  modelled by an `Except.error` input to the orchestrator.
-/

namespace TraditionalExample

/-- A persisted checkpoint record: validation accuracy and epoch index
(fields `acc` and `epoch` of the `state` dict saved by `train_model`);
the opaque `model_state_dict` blob is irrelevant to every claim and omitted. -/
structure Checkpoint where
  acc : ℚ
  epoch : ℕ
deriving DecidableEq, Repr

/-- The state carried across iterations of `train_model`'s epoch loop:
`best_acc` (initialised to `0.0` at line 52), the single checkpoint slot at
`CHECKPOINT_PATH` (`store`), the number of `scheduler.step()` calls made so
far (`schedSteps`), and a log of every checkpoint write performed
(`writes`, oldest first). -/
structure TrainState where
  best_acc : ℚ
  store : Option Checkpoint
  schedSteps : ℕ
  writes : List Checkpoint
deriving DecidableEq, Repr

/-- State at entry of the epoch loop: `best_acc = 0.0`, nothing written. -/
def initTrainState : TrainState :=
  { best_acc := 0, store := none, schedSteps := 0, writes := [] }

/-- One iteration of the epoch loop of `train_model` (lines 55-119), given the
validation accuracy `acc` computed by epoch `e`'s validation pass: if
`acc > best_acc` the record `{acc, e}` is saved (overwriting the slot) and
`best_acc` is updated; ties and decreases write nothing; afterwards
`scheduler.step()` runs once. -/
def trainEpoch (s : TrainState) (e : ℕ) (acc : ℚ) : TrainState :=
  let s1 :=
    if s.best_acc < acc then
      { s with best_acc := acc
               store := some ⟨acc, e⟩
               writes := s.writes ++ [⟨acc, e⟩] }
    else s
  { s1 with schedSteps := s1.schedSteps + 1 }

/-- The epoch loop of `train_model`, folding `trainEpoch` over the list of
per-epoch validation accuracies, starting at epoch index `e`. -/
def trainLoop (s : TrainState) (e : ℕ) : List ℚ → TrainState
  | [] => s
  | acc :: rest => trainLoop (trainEpoch s e acc) (e + 1) rest

/-- `train_model` run on a full sequence of validation accuracies: the final
loop state together with the returned flag `best_acc > 50` (line 122). -/
def train_model (accs : List ℚ) : TrainState × Bool :=
  let s := trainLoop initTrainState 0 accs
  (s, decide (50 < s.best_acc))

/-- Loop state after the first `k` epochs of a run on accuracies `accs`. -/
def stateAfter (accs : List ℚ) (k : ℕ) : TrainState :=
  trainLoop initTrainState 0 (accs.take k)

/-- A checkpoint write happened during epoch `e` of the run on `accs`. -/
def wroteAt (accs : List ℚ) (e : ℕ) : Prop :=
  (stateAfter accs (e + 1)).writes.length = (stateAfter accs e).writes.length + 1

/-- Milestone epochs of the `MultiStepLR` schedule (line 47). -/
def milestones : List ℕ := [60, 120, 160]

/-- Decay factor of the schedule (line 49): `gamma = 0.2 = 1/5`. -/
def gamma : ℚ := 1 / 5

/-- Learning-rate multiplier in effect after `k` calls to `scheduler.step()`
(closed form of `MultiStepLR`): `gamma` to the number of milestones `≤ k`. -/
def multiplierAt (k : ℕ) : ℚ :=
  gamma ^ milestones.countP (fun m => decide (m ≤ k))

/-- Observable outcome of one `verify_checkpoint` call: the returned boolean,
how many times `train_model` was invoked, and the checkpoint slot afterwards. -/
structure VerifyOut where
  result : Bool
  trainingRuns : ℕ
  store : Option Checkpoint
deriving DecidableEq, Repr

/-- `verify_checkpoint` (lines 125-178): if a record exists at
`CHECKPOINT_PATH` it returns `True` at once, training nothing and not looking
at the record's contents; otherwise it runs `train_model` (whose run would
observe validation accuracies `accs`) and returns that call's flag. -/
def verify_checkpoint (store : Option Checkpoint) (accs : List ℚ) : VerifyOut :=
  match store with
  | some c => ⟨true, 0, some c⟩
  | none =>
      let r := train_model accs
      ⟨r.2, 1, r.1.store⟩

/-- The final quality gate of `run_cifar100_experiment` (line 240):
`all(metrics["accuracy"] < 10.0 for metrics in results.values())`. -/
def qualityGate (accs : List ℚ) : Bool :=
  accs.all (fun a => decide (a < 10))

/-- `run_cifar100_experiment` (lines 181-254) reduced to its control flow:
`verify` is what `verify_checkpoint` returned; `stage` is the outcome of the
`try` block's steps 2-4 — either the list of classifier accuracies collected
in `results`, or an unhandled exception (caught at line 248, turned into
`return False`). With accuracies in hand, the run fails iff all of them are
below `10.0`. -/
def run_cifar100_experiment (verify : Bool) (stage : Except String (List ℚ)) : Bool :=
  if verify then
    match stage with
    | Except.error _ => false
    | Except.ok accs => if qualityGate accs then false else true
  else false

/-- `main` (lines 257-267): `sys.exit(1)` when the experiment fails,
normal exit (status `0`) when it succeeds. -/
def mainExitCode (verify : Bool) (stage : Except String (List ℚ)) : ℕ :=
  if run_cifar100_experiment verify stage then 0 else 1

/-- Subset truncation of `run_cifar100_experiment` (lines 204-211): when
`subset_size` is truthy, the train split is replaced by its first
`min(subset_size, len(train))` samples and the test split by its first
`min(subset_size // 5, len(test))` samples. -/
def truncateViews {α : Type} (subset_size : ℕ) (train test : List α) :
    List α × List α :=
  if subset_size ≠ 0 then
    (train.take (min subset_size train.length),
     test.take (min (subset_size / 5) test.length))
  else (train, test)

/-- File-system operations relevant to checkpoint persistence. -/
inductive FileOp where
  | mkdirParents : String → FileOp
  | write : String → FileOp
  | rename : String → String → FileOp
deriving DecidableEq, Repr

/-- The module-level checkpoint path (line 21). -/
def CHECKPOINT_PATH : String := "checkpoints/wideresnet/wideresnet_best.pt"

/-- The file operations performed by the checkpoint-save block of
`train_model` (lines 116-117): create the parent directory, then
`torch.save(state, CHECKPOINT_PATH)` — a single direct write of the final
path, with no temporary file and no rename. -/
def checkpointSaveOps : List FileOp :=
  [FileOp.mkdirParents "checkpoints/wideresnet", FileOp.write CHECKPOINT_PATH]

/-- A trace of file operations replaces the record at `path` atomically with
respect to process crashes: the final path is never the target of a direct
content write (a crash during such a write leaves a half-written file at
`path`); instead the content is written to a temporary location and renamed
onto `path`. -/
def atomicReplace (ops : List FileOp) (path : String) : Prop :=
  (∀ op ∈ ops, op ≠ FileOp.write path) ∧
  ∃ tmp, tmp ≠ path ∧ FileOp.write tmp ∈ ops ∧ FileOp.rename tmp path ∈ ops

/-- A trace whose only content write is a direct write of `path` itself,
with no rename anywhere. -/
def directWriteOnly (ops : List FileOp) (path : String) : Bool :=
  ops.any (fun op => decide (op = FileOp.write path)) &&
  ops.all (fun op =>
    match op with
    | FileOp.rename _ _ => false
    | FileOp.write p => decide (p = path)
    | FileOp.mkdirParents _ => true)

/-! ### Basic step and loop lemmas -/

theorem trainLoop_nil (s : TrainState) (e : ℕ) : trainLoop s e [] = s := rfl

theorem trainLoop_cons (s : TrainState) (e : ℕ) (a : ℚ) (rest : List ℚ) :
    trainLoop s e (a :: rest) = trainLoop (trainEpoch s e a) (e + 1) rest := rfl

theorem trainEpoch_best_acc (s : TrainState) (e : ℕ) (a : ℚ) :
    (trainEpoch s e a).best_acc = max s.best_acc a := by
  by_cases h : s.best_acc < a
  · simp [trainEpoch, h, max_eq_right h.le]
  · simp [trainEpoch, h, max_eq_left (not_lt.mp h)]

theorem trainEpoch_schedSteps (s : TrainState) (e : ℕ) (a : ℚ) :
    (trainEpoch s e a).schedSteps = s.schedSteps + 1 := by
  by_cases h : s.best_acc < a <;> simp [trainEpoch, h]

theorem trainEpoch_store (s : TrainState) (e : ℕ) (a : ℚ) :
    (trainEpoch s e a).store =
      if s.best_acc < a then some ⟨a, e⟩ else s.store := by
  by_cases h : s.best_acc < a <;> simp [trainEpoch, h]

theorem trainEpoch_writes (s : TrainState) (e : ℕ) (a : ℚ) :
    (trainEpoch s e a).writes =
      if s.best_acc < a then s.writes ++ [⟨a, e⟩] else s.writes := by
  by_cases h : s.best_acc < a <;> simp [trainEpoch, h]

theorem trainLoop_append (s : TrainState) (e : ℕ) (l : List ℚ) (a : ℚ) :
    trainLoop s e (l ++ [a]) = trainEpoch (trainLoop s e l) (e + l.length) a := by
  induction l generalizing s e with
  | nil => simp [trainLoop_nil, trainLoop_cons]
  | cons x xs ih =>
    rw [List.cons_append, trainLoop_cons, ih, trainLoop_cons]
    congr 1
    simp
    omega

theorem trainLoop_best_acc (s : TrainState) (e : ℕ) (l : List ℚ) :
    (trainLoop s e l).best_acc = l.foldl max s.best_acc := by
  induction l generalizing s e with
  | nil => rfl
  | cons x xs ih =>
    rw [trainLoop_cons, ih, trainEpoch_best_acc]
    rfl

theorem trainLoop_schedSteps (s : TrainState) (e : ℕ) (l : List ℚ) :
    (trainLoop s e l).schedSteps = s.schedSteps + l.length := by
  induction l generalizing s e with
  | nil => simp [trainLoop_nil]
  | cons x xs ih =>
    rw [trainLoop_cons, ih, trainEpoch_schedSteps]
    simp
    omega

/-! ### Facts about `foldl max` -/

theorem foldlMax_le_iff (l : List ℚ) (b c : ℚ) :
    l.foldl max b ≤ c ↔ b ≤ c ∧ ∀ x ∈ l, x ≤ c := by
  induction l generalizing b with
  | nil => simp
  | cons x xs ih =>
    rw [List.foldl_cons, ih, max_le_iff]
    simp
    tauto

theorem foldlMax_lt_iff (l : List ℚ) (b c : ℚ) :
    l.foldl max b < c ↔ b < c ∧ ∀ x ∈ l, x < c := by
  induction l generalizing b with
  | nil => simp
  | cons x xs ih =>
    rw [List.foldl_cons, ih, max_lt_iff]
    simp
    tauto

theorem le_foldlMax (l : List ℚ) (b : ℚ) : b ≤ l.foldl max b :=
  ((foldlMax_le_iff l b _).mp le_rfl).1

theorem le_foldlMax_of_mem {l : List ℚ} {x : ℚ} (hx : x ∈ l) (b : ℚ) :
    x ≤ l.foldl max b :=
  ((foldlMax_le_iff l b _).mp le_rfl).2 x hx

theorem foldlMax_eq_or_mem (l : List ℚ) (b : ℚ) :
    l.foldl max b = b ∨ l.foldl max b ∈ l := by
  induction l generalizing b with
  | nil => left; rfl
  | cons x xs ih =>
    rw [List.foldl_cons]
    rcases ih (max b x) with h | h
    · rcases le_or_lt x b with hxb | hxb
      · left
        rw [h, max_eq_left hxb]
      · right
        rw [h, max_eq_right hxb.le]
        exact List.mem_cons_self x xs
    · right
      exact List.mem_cons_of_mem x h

/-! ### Prefix states of a run -/

theorem stateAfter_zero (accs : List ℚ) : stateAfter accs 0 = initTrainState := rfl

theorem stateAfter_succ (accs : List ℚ) (e : ℕ) (he : e < accs.length) :
    stateAfter accs (e + 1) =
      trainEpoch (stateAfter accs e) e (accs.get ⟨e, he⟩) := by
  unfold stateAfter
  rw [List.take_succ, List.getElem?_eq_getElem he, Option.toList_some,
    trainLoop_append]
  congr 1
  rw [List.length_take]
  simp
  omega

theorem stateAfter_best_acc (accs : List ℚ) (k : ℕ) :
    (stateAfter accs k).best_acc = (accs.take k).foldl max 0 :=
  trainLoop_best_acc initTrainState 0 (accs.take k)

theorem trainEpoch_store_acc {s : TrainState} (e : ℕ) (a : ℚ)
    (h : ∀ c, s.store = some c → c.acc = s.best_acc) :
    ∀ c, (trainEpoch s e a).store = some c →
      c.acc = (trainEpoch s e a).best_acc := by
  intro c hc
  rw [trainEpoch_store] at hc
  rw [trainEpoch_best_acc]
  by_cases hx : s.best_acc < a
  · rw [if_pos hx] at hc
    cases hc
    rw [max_eq_right hx.le]
  · rw [if_neg hx] at hc
    rw [max_eq_left (not_lt.mp hx)]
    exact h c hc

theorem trainLoop_store_acc (s : TrainState) (e : ℕ) (l : List ℚ)
    (h : ∀ c, s.store = some c → c.acc = s.best_acc) :
    ∀ c, (trainLoop s e l).store = some c →
      c.acc = (trainLoop s e l).best_acc := by
  induction l generalizing s e with
  | nil => exact h
  | cons x xs ih =>
    rw [trainLoop_cons]
    exact ih (trainEpoch s e x) (e + 1) (trainEpoch_store_acc e x h)

theorem wroteAt_iff (accs : List ℚ) (e : ℕ) (he : e < accs.length) :
    wroteAt accs e ↔ (stateAfter accs e).best_acc < accs.get ⟨e, he⟩ := by
  unfold wroteAt
  rw [stateAfter_succ accs e he, trainEpoch_writes]
  simp only [List.get_eq_getElem]
  by_cases h : (stateAfter accs e).best_acc < accs[e]
  · simp [h]
  · simp only [if_neg h]
    constructor
    · intro hlen
      omega
    · intro hlt
      exact absurd hlt h

theorem forall_mem_take_iff (accs : List ℚ) (e : ℕ) (he : e ≤ accs.length)
    (b : ℚ) :
    (∀ x ∈ accs.take e, x < b) ↔
      ∀ (i : ℕ) (hi : i < e), accs.get ⟨i, lt_of_lt_of_le hi he⟩ < b := by
  constructor
  · intro h i hi
    have hi2 : i < (accs.take e).length := by
      rw [List.length_take]
      simp
      omega
    have : accs.get ⟨i, lt_of_lt_of_le hi he⟩ = (accs.take e).get ⟨i, hi2⟩ := by
      simp [List.get_eq_getElem, List.getElem_take]
    rw [this]
    exact h _ (List.get_mem _ _ hi2)
  · intro h x hx
    obtain ⟨⟨i, hi⟩, rfl⟩ := List.mem_iff_get.mp hx
    have hi2 : i < e := by
      have := hi
      rw [List.length_take] at this
      omega
    have : (accs.take e).get ⟨i, hi⟩ =
        accs.get ⟨i, lt_of_lt_of_le hi2 he⟩ := by
      simp [List.get_eq_getElem, List.getElem_take]
    rw [this]
    exact h i hi2

theorem trainLoop_zeros (l : List ℚ) (hz : ∀ a ∈ l, a = 0) (k e : ℕ) :
    trainLoop ⟨0, none, k, []⟩ e l = ⟨0, none, k + l.length, []⟩ := by
  induction l generalizing k e with
  | nil => simp [trainLoop_nil]
  | cons x xs ih =>
    have hx : x = 0 := hz x (List.mem_cons_self x xs)
    rw [trainLoop_cons]
    have hstep : trainEpoch ⟨0, none, k, []⟩ e x = ⟨0, none, k + 1, []⟩ := by
      subst hx
      simp [trainEpoch]
    rw [hstep, ih (fun a ha => hz a (List.mem_cons_of_mem x ha))]
    congr 1
    simp
    omega

/-! ### Milestone counting for the LR schedule -/

theorem countP_milestones (e : ℕ) :
    milestones.countP (fun m => decide (m ≤ e)) =
      (if 60 ≤ e then 1 else 0) + (if 120 ≤ e then 1 else 0)
        + (if 160 ≤ e then 1 else 0) := by
  simp only [milestones, List.countP_cons, List.countP_nil, decide_eq_true_eq]
  omega

theorem multiplierAt_eq (e : ℕ) :
    multiplierAt e =
      gamma ^ ((if 60 ≤ e then 1 else 0) + (if 120 ≤ e then 1 else 0)
        + (if 160 ≤ e then 1 else 0)) := by
  rw [multiplierAt, countP_milestones]

/-! ### The claims -/

/-- Claim C2: with the checkpoint gate passed and steps 2-4 having produced a
non-empty collection of classifier accuracies, `run_cifar100_experiment`
reports failure exactly when every accuracy is strictly below `10.0`; in
particular accuracies `[9.9, 9.9]` yield failure and `[9.9, 10.0]` yield
success. -/
theorem C2_quality_gate_iff (accs : List ℚ) (_hne : accs ≠ []) :
    (run_cifar100_experiment true (Except.ok accs) = false ↔
      ∀ a ∈ accs, a < 10)
    ∧ run_cifar100_experiment true (Except.ok [9.9, 9.9]) = false
    ∧ run_cifar100_experiment true (Except.ok [9.9, 10.0]) = true := by
  refine ⟨?_, by norm_num [run_cifar100_experiment, qualityGate],
    by norm_num [run_cifar100_experiment, qualityGate]⟩
  have hq : qualityGate accs = true ↔ ∀ a ∈ accs, a < 10 := by
    simp [qualityGate, List.all_eq_true]
  by_cases hg : qualityGate accs = true
  · have hrun : run_cifar100_experiment true (Except.ok accs) = false := by
      simp [run_cifar100_experiment, hg]
    exact iff_of_true hrun (hq.mp hg)
  · have hrun : run_cifar100_experiment true (Except.ok accs) = true := by
      simp [run_cifar100_experiment, hg]
    exact iff_of_false (by simp [hrun]) (fun h => hg (hq.mpr h))

theorem C2_quality_gate_iff_witness :
    ([(9.9 : ℚ), 9.9] ≠ []) ∧
      ((run_cifar100_experiment true (Except.ok [(9.9 : ℚ), 9.9]) = false ↔
          ∀ a ∈ [(9.9 : ℚ), 9.9], a < 10)
        ∧ run_cifar100_experiment true (Except.ok [9.9, 9.9]) = false
        ∧ run_cifar100_experiment true (Except.ok [9.9, 10.0]) = true) :=
  ⟨by decide, C2_quality_gate_iff [9.9, 9.9] (by decide)⟩

/-- Claim C3: `scheduler.step()` runs exactly once per epoch (after the
epoch's validation pass, which in this embedding has already produced the
accuracy fed to `trainEpoch`), so after `k` completed epochs the schedule has
been stepped `k` times, and the multiplier in effect during epoch `e`'s
training is `gamma ^ (number of milestones ≤ e)`: `1.0` for epochs `0-59`,
`0.2` for `60-119`, `0.04` for `120-159`, `0.008` for `160` and above. -/
theorem C3_lr_schedule :
    (∀ (s : TrainState) (e : ℕ) (a : ℚ),
        (trainEpoch s e a).schedSteps = s.schedSteps + 1)
    ∧ (∀ (accs : List ℚ) (k : ℕ), k ≤ accs.length →
        (stateAfter accs k).schedSteps = k)
    ∧ (∀ e : ℕ, e < 60 → multiplierAt e = 1)
    ∧ (∀ e : ℕ, 60 ≤ e → e < 120 → multiplierAt e = 0.2)
    ∧ (∀ e : ℕ, 120 ≤ e → e < 160 → multiplierAt e = 0.04)
    ∧ (∀ e : ℕ, 160 ≤ e → multiplierAt e = 0.008) := by
  refine ⟨trainEpoch_schedSteps, ?_, ?_, ?_, ?_, ?_⟩
  · intro accs k hk
    unfold stateAfter
    rw [trainLoop_schedSteps]
    simp [initTrainState, List.length_take]
    omega
  · intro e h
    have h60 : ¬ 60 ≤ e := by omega
    have h120 : ¬ 120 ≤ e := by omega
    have h160 : ¬ 160 ≤ e := by omega
    rw [multiplierAt_eq, if_neg h60, if_neg h120, if_neg h160]
    norm_num
  · intro e h1 h2
    have h120 : ¬ 120 ≤ e := by omega
    have h160 : ¬ 160 ≤ e := by omega
    rw [multiplierAt_eq, if_pos h1, if_neg h120, if_neg h160]
    norm_num [gamma]
  · intro e h1 h2
    have h60 : 60 ≤ e := by omega
    have h160 : ¬ 160 ≤ e := by omega
    rw [multiplierAt_eq, if_pos h60, if_pos h1, if_neg h160]
    norm_num [gamma]
  · intro e h1
    have h60 : 60 ≤ e := by omega
    have h120 : 120 ≤ e := by omega
    rw [multiplierAt_eq, if_pos h60, if_pos h120, if_pos h1]
    norm_num [gamma]

theorem C3_lr_schedule_witness :
    (trainEpoch initTrainState 0 7).schedSteps = initTrainState.schedSteps + 1
    ∧ ((2 : ℕ) ≤ [(1 : ℚ), 2, 3].length
        ∧ (stateAfter [(1 : ℚ), 2, 3] 2).schedSteps = 2)
    ∧ ((59 : ℕ) < 60 ∧ multiplierAt 59 = 1)
    ∧ ((60 : ℕ) ≤ 60 ∧ (60 : ℕ) < 120 ∧ multiplierAt 60 = 0.2)
    ∧ ((120 : ℕ) ≤ 120 ∧ (120 : ℕ) < 160 ∧ multiplierAt 120 = 0.04)
    ∧ ((160 : ℕ) ≤ 160 ∧ multiplierAt 160 = 0.008) :=
  ⟨C3_lr_schedule.1 initTrainState 0 7,
   ⟨by decide, C3_lr_schedule.2.1 [1, 2, 3] 2 (by decide)⟩,
   ⟨by decide, C3_lr_schedule.2.2.1 59 (by decide)⟩,
   ⟨by decide, by decide, C3_lr_schedule.2.2.2.1 60 (by decide) (by decide)⟩,
   ⟨by decide, by decide, C3_lr_schedule.2.2.2.2.1 120 (by decide) (by decide)⟩,
   ⟨by decide, C3_lr_schedule.2.2.2.2.2 160 (by decide)⟩⟩

/-- Claim C4: `train_model` returns success exactly when some epoch's
validation accuracy strictly exceeds `50.0` (equivalently, when the best
accuracy seen does); on the accuracy sequence `[40, 55, 52]` it succeeds and
the final checkpoint record stores accuracy `55` and epoch index `1`. -/
theorem C4_training_success_iff (accs : List ℚ) :
    ((train_model accs).2 = true ↔ ∃ a ∈ accs, 50 < a)
    ∧ (train_model [40, 55, 52]).2 = true
    ∧ (trainLoop initTrainState 0 [40, 55, 52]).store = some ⟨55, 1⟩ := by
  refine ⟨?_, by decide, by decide⟩
  have hbest : (trainLoop initTrainState 0 accs).best_acc = accs.foldl max 0 :=
    trainLoop_best_acc initTrainState 0 accs
  simp only [train_model, decide_eq_true_eq, hbest]
  constructor
  · intro h
    by_contra hc
    push_neg at hc
    have hle : accs.foldl max 0 ≤ 50 :=
      (foldlMax_le_iff accs 0 50).mpr ⟨by norm_num, hc⟩
    exact absurd h (not_lt.mpr hle)
  · rintro ⟨a, ha, h50⟩
    exact lt_of_lt_of_le h50 (le_foldlMax_of_mem ha 0)

/-- Claim C7: an unhandled error from orchestrator steps 2-4 is caught and
converted to a failed run (never a crash), the process then exits non-zero,
and the exit status is `0` exactly when the experiment succeeds. -/
theorem C7_error_containment_exit_status :
    (∀ (v : Bool) (msg : String),
        run_cifar100_experiment v (Except.error msg) = false)
    ∧ (∀ (v : Bool) (msg : String), mainExitCode v (Except.error msg) = 1)
    ∧ (∀ (v : Bool) (st : Except String (List ℚ)),
        mainExitCode v st = 0 ↔ run_cifar100_experiment v st = true) := by
  refine ⟨?_, ?_, ?_⟩
  · intro v msg
    cases v <;> rfl
  · intro v msg
    cases v <;> rfl
  · intro v st
    by_cases h : run_cifar100_experiment v st <;> simp [mainExitCode, h]

/-- Claim C10: with an empty classifier set the result collection is empty,
the universally quantified quality gate is vacuously true, and the run is
reported as a failure with a non-zero process exit status — even though no
classifier scored below the `10.0` floor. -/
theorem C10_empty_classifier_set :
    run_cifar100_experiment true (Except.ok []) = false
    ∧ mainExitCode true (Except.ok []) = 1
    ∧ qualityGate [] = true
    ∧ ¬ ∃ a, a ∈ ([] : List ℚ) ∧ a < 10 := by
  refine ⟨rfl, rfl, rfl, ?_⟩
  rintro ⟨a, ha, -⟩
  exact List.not_mem_nil a ha

/-- Claim C5: when a checkpoint record already exists, `verify_checkpoint`
returns success at once, running `train_model` zero times and never looking at
the record's stored accuracy; an immediately repeated call again runs zero
training and succeeds; and a `false` return can only arise from a call that
ran training once and whose best accuracy failed the `50` floor. -/
theorem C5_checkpoint_gate (store : Option Checkpoint) (c : Checkpoint)
    (accs accs2 : List ℚ) (h : store = some c) :
    verify_checkpoint store accs = ⟨true, 0, store⟩
    ∧ verify_checkpoint (verify_checkpoint store accs).store accs2 =
        ⟨true, 0, store⟩
    ∧ ∀ (st : Option Checkpoint) (l : List ℚ),
        (verify_checkpoint st l).result = false →
          (verify_checkpoint st l).trainingRuns = 1
          ∧ ¬ 50 < (trainLoop initTrainState 0 l).best_acc := by
  subst h
  refine ⟨rfl, rfl, ?_⟩
  intro st l hr
  cases st with
  | some c2 => exact absurd hr (by simp [verify_checkpoint])
  | none =>
    refine ⟨rfl, ?_⟩
    have hres : (verify_checkpoint none l).result =
        decide (50 < (trainLoop initTrainState 0 l).best_acc) := rfl
    rw [hres] at hr
    exact of_decide_eq_false hr

theorem C5_checkpoint_gate_witness :
    ((some ⟨95, 7⟩ : Option Checkpoint) = some (⟨95, 7⟩ : Checkpoint)) ∧
      (verify_checkpoint (some ⟨95, 7⟩) [] = ⟨true, 0, some ⟨95, 7⟩⟩
      ∧ verify_checkpoint (verify_checkpoint (some ⟨95, 7⟩) []).store [] =
          ⟨true, 0, some ⟨95, 7⟩⟩
      ∧ ∀ (st : Option Checkpoint) (l : List ℚ),
          (verify_checkpoint st l).result = false →
            (verify_checkpoint st l).trainingRuns = 1
            ∧ ¬ 50 < (trainLoop initTrainState 0 l).best_acc) :=
  ⟨rfl, C5_checkpoint_gate (some ⟨95, 7⟩) ⟨95, 7⟩ [] [] rfl⟩

theorem take_min_length {α : Type} (l : List α) (n : ℕ) :
    l.take (min n l.length) = l.take n := by
  rcases le_total n l.length with h | h
  · rw [min_eq_left h]
  · rw [min_eq_right h, List.take_length, List.take_of_length_le h]

/-- Claim C6: with a truthy `subset_size = n`, the truncated train view is the
first `min(n, len(train))` samples of the train split and the truncated test
view the first `min(n // 5, len(test))` samples of the test split, never
exceeding the underlying split's length; `n = 5000` with a train split of
length `4000` gives a view of length `4000`, and a test split of length
`100000` gives a view of length `1000`. -/
theorem C6_subset_truncation {α : Type} (n : ℕ) (hn : n ≠ 0)
    (train test : List α) :
    (truncateViews n train test).1 = train.take n
    ∧ (truncateViews n train test).2 = test.take (n / 5)
    ∧ (truncateViews n train test).1.length = min n train.length
    ∧ (truncateViews n train test).2.length = min (n / 5) test.length
    ∧ (truncateViews n train test).1.length ≤ train.length
    ∧ (truncateViews n train test).2.length ≤ test.length
    ∧ (truncateViews 5000 (List.replicate 4000 (0 : ℕ))
        (List.replicate 100000 (0 : ℕ))).1.length = 4000
    ∧ (truncateViews 5000 (List.replicate 4000 (0 : ℕ))
        (List.replicate 100000 (0 : ℕ))).2.length = 1000 := by
  have ht : truncateViews n train test =
      (train.take (min n train.length),
        test.take (min (n / 5) test.length)) := by
    simp [truncateViews, hn]
  refine ⟨?_, ?_, ?_, ?_, ?_, ?_, ?_, ?_⟩
  · rw [ht]
    exact take_min_length train n
  · rw [ht]
    exact take_min_length test (n / 5)
  · rw [ht]
    simp only [List.length_take]
    omega
  · rw [ht]
    simp only [List.length_take]
    omega
  · rw [ht]
    simp only [List.length_take]
    omega
  · rw [ht]
    simp only [List.length_take]
    omega
  · norm_num [truncateViews, List.length_take, List.length_replicate]
  · norm_num [truncateViews, List.length_take, List.length_replicate]

theorem C6_subset_truncation_witness :
    ((3 : ℕ) ≠ 0) ∧
      ((truncateViews 3 [(10 : ℕ), 20] [(30 : ℕ)]).1 = [(10 : ℕ), 20].take 3
      ∧ (truncateViews 3 [(10 : ℕ), 20] [(30 : ℕ)]).2 = [(30 : ℕ)].take (3 / 5)
      ∧ (truncateViews 3 [(10 : ℕ), 20] [(30 : ℕ)]).1.length =
          min 3 [(10 : ℕ), 20].length
      ∧ (truncateViews 3 [(10 : ℕ), 20] [(30 : ℕ)]).2.length =
          min (3 / 5) [(30 : ℕ)].length
      ∧ (truncateViews 3 [(10 : ℕ), 20] [(30 : ℕ)]).1.length ≤
          [(10 : ℕ), 20].length
      ∧ (truncateViews 3 [(10 : ℕ), 20] [(30 : ℕ)]).2.length ≤
          [(30 : ℕ)].length
      ∧ (truncateViews 5000 (List.replicate 4000 (0 : ℕ))
          (List.replicate 100000 (0 : ℕ))).1.length = 4000
      ∧ (truncateViews 5000 (List.replicate 4000 (0 : ℕ))
          (List.replicate 100000 (0 : ℕ))).2.length = 1000) :=
  ⟨by decide, C6_subset_truncation 3 (by decide) [10, 20] [30]⟩

/-- Claim C8, as stated, is false of the code: the checkpoint-save block of
`train_model` performs no write-to-temporary-then-rename (nor any equivalent);
its trace is a direct `torch.save` to `CHECKPOINT_PATH`, so the atomicity
predicate fails on it. -/
theorem C8_counterexample_direct_save :
    ¬ atomicReplace checkpointSaveOps CHECKPOINT_PATH := by
  intro h
  exact h.1 (FileOp.write CHECKPOINT_PATH)
    (List.mem_cons_of_mem _ (List.mem_cons_self _ _)) rfl

/-- Claim C8 amended: each checkpoint write creates the parent directory and
then writes the record directly at the configured checkpoint path; no
temporary location and no rename are involved, so nothing prevents a crash
mid-write from leaving a half-written file at the checkpoint path. -/
theorem C8_amended_direct_write :
    directWriteOnly checkpointSaveOps CHECKPOINT_PATH = true := by
  decide

/-- Claim C1: for any sequence of per-epoch validation accuracies (each of
which is of the form `100 * correct / total` and hence nonnegative), after
epoch `e` the `best_acc` variable is the maximum of the accuracies of epochs
`0..e` (it is one of them and bounds them all), the accuracy stored in the
checkpoint record (if one has been written) equals that maximum, the stored
best never decreases from one epoch to the next, and a checkpoint write
happens during epoch `e` exactly when epoch `e`'s accuracy strictly exceeds
the best so far (so ties write nothing). -/
theorem C1_best_accuracy_invariant (accs : List ℚ)
    (hnn : ∀ a ∈ accs, 0 ≤ a) :
    ∀ (e : ℕ) (he : e < accs.length),
      ((stateAfter accs (e + 1)).best_acc ∈ accs.take (e + 1)
        ∧ ∀ a ∈ accs.take (e + 1), a ≤ (stateAfter accs (e + 1)).best_acc)
      ∧ (∀ c, (stateAfter accs (e + 1)).store = some c →
          c.acc = (stateAfter accs (e + 1)).best_acc)
      ∧ (stateAfter accs e).best_acc ≤ (stateAfter accs (e + 1)).best_acc
      ∧ (wroteAt accs e ↔
          (stateAfter accs e).best_acc < accs.get ⟨e, he⟩) := by
  intro e he
  refine ⟨⟨?_, ?_⟩, ?_, ?_, wroteAt_iff accs e he⟩
  · rcases foldlMax_eq_or_mem (accs.take (e + 1)) 0 with h0 | hmem
    · rw [stateAfter_best_acc, h0]
      have hne : accs.take (e + 1) ≠ [] := by
        apply List.ne_nil_of_length_pos
        rw [List.length_take]
        omega
      obtain ⟨y, ys, hys⟩ := List.exists_cons_of_ne_nil hne
      have hy_mem : y ∈ accs.take (e + 1) := by
        rw [hys]
        exact List.mem_cons_self y ys
      have hy0 : 0 ≤ y := hnn y (List.mem_of_mem_take hy_mem)
      have hyle : y ≤ (accs.take (e + 1)).foldl max 0 :=
        le_foldlMax_of_mem hy_mem 0
      rw [h0] at hyle
      rw [← le_antisymm hyle hy0]
      exact hy_mem
    · rw [stateAfter_best_acc]
      exact hmem
  · intro a ha
    rw [stateAfter_best_acc]
    exact le_foldlMax_of_mem ha 0
  · exact trainLoop_store_acc initTrainState 0 (accs.take (e + 1))
      (fun c hc => by simp [initTrainState] at hc)
  · rw [stateAfter_succ accs e he, trainEpoch_best_acc]
    exact le_max_left _ _

theorem C1_best_accuracy_invariant_witness :
    (∀ a ∈ [(5 : ℚ)], 0 ≤ a) ∧
      (((stateAfter [(5 : ℚ)] 1).best_acc ∈ [(5 : ℚ)].take 1
        ∧ ∀ a ∈ [(5 : ℚ)].take 1, a ≤ (stateAfter [(5 : ℚ)] 1).best_acc)
      ∧ (∀ c, (stateAfter [(5 : ℚ)] 1).store = some c →
          c.acc = (stateAfter [(5 : ℚ)] 1).best_acc)
      ∧ (stateAfter [(5 : ℚ)] 0).best_acc ≤ (stateAfter [(5 : ℚ)] 1).best_acc
      ∧ (wroteAt [(5 : ℚ)] 0 ↔
          (stateAfter [(5 : ℚ)] 0).best_acc < [(5 : ℚ)].get ⟨0, by decide⟩)) :=
  ⟨by decide, C1_best_accuracy_invariant [(5 : ℚ)] (by decide) 0 (by decide)⟩

/-- Claim C9: since `best_acc` starts at `0.0` and a write needs a strict
improvement, a checkpoint write happens during epoch `e` exactly when epoch
`e`'s accuracy exceeds both `0` and every earlier epoch's accuracy; and on a
run whose validation accuracies are all `0.0` the loop still completes every
epoch (the schedule is stepped once per epoch), no record is ever written,
and `train_model` reports failure. -/
theorem C9_zero_best_write_condition (accs : List ℚ) :
    (∀ (e : ℕ) (he : e < accs.length),
        wroteAt accs e ↔
          0 < accs.get ⟨e, he⟩ ∧
            ∀ (i : ℕ) (hi : i < e),
              accs.get ⟨i, lt_trans hi he⟩ < accs.get ⟨e, he⟩)
    ∧ ∀ zl : List ℚ, (∀ a ∈ zl, a = 0) →
        (trainLoop initTrainState 0 zl).schedSteps = zl.length
        ∧ (trainLoop initTrainState 0 zl).writes = []
        ∧ (trainLoop initTrainState 0 zl).store = none
        ∧ (train_model zl).2 = false := by
  constructor
  · intro e he
    rw [wroteAt_iff accs e he, stateAfter_best_acc,
      foldlMax_lt_iff (accs.take e) 0 (accs.get ⟨e, he⟩),
      forall_mem_take_iff accs e he.le (accs.get ⟨e, he⟩)]
  · intro zl hz
    have hinit : initTrainState = (⟨0, none, 0, []⟩ : TrainState) := rfl
    have hrun := trainLoop_zeros zl hz 0 0
    rw [hinit]
    refine ⟨?_, ?_, ?_, ?_⟩
    · rw [hrun]
      simp
    · rw [hrun]
    · rw [hrun]
    · have hb : (trainLoop initTrainState 0 zl).best_acc = 0 := by
        rw [hinit, hrun]
      simp [train_model, hb]

theorem C9_zero_best_write_condition_witness :
    ((1 : ℕ) < [(0 : ℚ), 5, 3].length) ∧
      (wroteAt [(0 : ℚ), 5, 3] 1 ↔
        0 < [(0 : ℚ), 5, 3].get ⟨1, by decide⟩ ∧
          ∀ (i : ℕ) (hi : i < 1),
            [(0 : ℚ), 5, 3].get ⟨i, lt_trans hi (by decide)⟩ <
              [(0 : ℚ), 5, 3].get ⟨1, by decide⟩) ∧
      ((∀ a ∈ [(0 : ℚ), 0], a = 0) ∧
        (trainLoop initTrainState 0 [(0 : ℚ), 0]).schedSteps = 2
        ∧ (trainLoop initTrainState 0 [(0 : ℚ), 0]).writes = []
        ∧ (trainLoop initTrainState 0 [(0 : ℚ), 0]).store = none
        ∧ (train_model [(0 : ℚ), 0]).2 = false) :=
  ⟨by decide,
   (C9_zero_best_write_condition [(0 : ℚ), 5, 3]).1 1 (by decide),
   by decide,
   (C9_zero_best_write_condition [(0 : ℚ), 5, 3]).2
     [(0 : ℚ), 0] (by decide)⟩

end TraditionalExample
